import Mathlib

/-
Verification of the juju-verify ceph verifier core
(src/juju_verify/verifiers/ceph.py) against its natural-language
specification.

The definitions below are a shallow embedding of the Python source:
Python ints are modelled as `Int` (they are unbounded and subtraction
occurs), Python sets as `Finset String` built from the lists they are
constructed from, Python dicts keyed by `NodeInfo` as association lists
with structural key equality (Python `NamedTuple.__eq__` is field-wise
equality, and dict key resolution is hash-then-eq, hence semantically
structural equality), and Python exceptions as `Except String`.
-/

namespace JujuVerify

/-- Modelled from the spec: `Severity` lives in juju_verify/verifiers/result.py,
which is not part of the sources provided; per spec section 3/4.2 it is a graded
outcome type with ordered severities OK < WARN < FAIL. -/
inductive Severity
  | OK
  | WARN
  | FAIL
deriving DecidableEq, Repr

/-- Modelled from the spec: `Result` lives in juju_verify/verifiers/result.py,
which is not part of the sources provided; per spec section 3 it holds an
ordered sequence of (severity, message) partials. -/
structure Result where
  partials : List (Severity × String)
deriving DecidableEq, Repr

/-- Modelled from the spec: zero-argument `Result()` constructor, an implicit
OK with no partials (spec section 4.2). -/
def Result.empty : Result := ⟨[]⟩

/-- Modelled from the spec: single-severity `Result(severity, message)`
constructor yielding one partial (spec section 4.2). -/
def Result.single (s : Severity) (msg : String) : Result := ⟨[(s, msg)]⟩

/-- Modelled from the spec: `Result.success` is true iff no partial carries
FAIL (spec section 3). -/
def Result.success (r : Result) : Bool :=
  r.partials.all (fun p => p.1 ≠ Severity.FAIL)

/-- Modelled from the spec: `Result.add_partial_result` appends one partial,
the only mutator (spec section 4.2); modelled functionally. -/
def Result.add_partial_result (r : Result) (s : Severity) (msg : String) : Result :=
  ⟨r.partials ++ [(s, msg)]⟩

/-- Modelled from the spec: `Result.__add__` / `combine` concatenates the
partials; the severity is always recomputed from the partials, so the
partials list is the entire state (spec section 4.2). -/
def Result.combine (a b : Result) : Result := ⟨a.partials ++ b.partials⟩

/-- Modelled from the spec: Python `result or default` as used in
`check_quorum` / `check_replication_number`; a Result is truthy iff a partial
was ever added (spec section 3: "the check returns either its own Result or a
canonical all-good singleton when no partial was ever added"). -/
def Result.orDefault (r d : Result) : Result :=
  if r.partials = [] then d else r

/-- Substring test on lists of characters, used to model Python's
`"HEALTH_OK" in cluster_health` membership test on strings. -/
def charsHaveSub (pat : List Char) : List Char → Bool
  | [] => pat.isEmpty
  | c :: cs => (pat.isPrefixOf (c :: cs)) || charsHaveSub pat cs

/-- Python `pat in s` for strings: `pat` occurs as a contiguous substring. -/
def strContains (s pat : String) : Bool :=
  charsHaveSub pat.toList s.toList

/-- One entry of the `ceph df osd tree` output; mirrors `NodeInfo` in ceph.py
(a NamedTuple). Field `type` is written `«type»` because `type` is a Lean
keyword. -/
structure NodeInfo where
  id : Int
  name : String
  type_id : Int
  «type» : String
  kb : Int
  kb_used : Int
  kb_avail : Int
  children : Option (List Int) := none
deriving DecidableEq, Repr

/-- Mirrors `NodeInfo.__str__`: `f"{self.type_id}-{self.name}({self.id})"`. -/
def NodeInfo.str (n : NodeInfo) : String :=
  toString n.type_id ++ "-" ++ n.name ++ "(" ++ toString n.id ++ ")"

/-- Mirrors `CephTree` from ceph.py: it owns the node list; the name-to-index
dict is a derived index and is reflected in `get_node` below. -/
structure CephTree where
  nodes : List NodeInfo
deriving DecidableEq, Repr

namespace CephTree

/-- Mirrors `CephTree.SUPPORTED_ANCESTOR_TYPES`. -/
def SUPPORTED_ANCESTOR_TYPES : List String :=
  ["root", "region", "datacenter", "room", "pod", "pdu", "row", "rack", "chassis"]

/-- Mirrors `CephTree._get_node`: the constructor builds
`{node.name: index for index, node in enumerate(nodes)}`, so a duplicated name
maps to its last index; looking the name up returns that node, and a missing
name raises `KeyError`. Searching the reversed list for the first match is
exactly the last-index semantics. -/
def get_node (t : CephTree) (name : String) : Except String NodeInfo :=
  match t.nodes.reverse.find? (fun n => n.name == name) with
  | some node => .ok node
  | none => .error ("Node " ++ name ++ " was not found.")

/-- Mirrors the recursion of `CephTree._find_ancestor` with explicit fuel.
Each step scans the node list for the first node whose `children` contain the
current node's id (`if _node.children and node.id in _node.children`; an
absent or empty children list never matches), returns it if it has the
required type and otherwise recurses from it. In an acyclic forest the parent
chain visits pairwise distinct nodes, so `nodes.length + 1` units of fuel are
never exhausted; on a cyclic node list the Python recursion does not
terminate (RecursionError) while this model returns `none`. -/
def find_ancestor_aux (t : CephTree) (required_type : String) :
    Nat → NodeInfo → Option NodeInfo
  | 0, _ => none
  | fuel + 1, node =>
    match t.nodes.find? (fun m => (m.children.getD []).contains node.id) with
    | some parent =>
      if parent.«type» != required_type then
        t.find_ancestor_aux required_type fuel parent
      else
        some parent
    | none => none

/-- Mirrors `CephTree._find_ancestor` (entry point with full fuel). -/
def find_ancestor (t : CephTree) (node : NodeInfo) (required_type : String) :
    Option NodeInfo :=
  t.find_ancestor_aux required_type (t.nodes.length + 1) node

/-- Mirrors the validation
`all(self._get_node(name).type == "host" for name in names)` in
`can_remove_host_node`, including Python's left-to-right evaluation: the first
name that fails to resolve raises `KeyError`, and the first name resolving to
a non-host node raises the `ValueError` below. -/
def validate_hosts (t : CephTree) : List String → Except String Unit
  | [] => .ok ()
  | name :: rest => do
    let node ← t.get_node name
    if node.«type» == "host" then
      t.validate_hosts rest
    else
      .error "Function can_remove_host_node is working only for node type host."

/-- Mirrors one iteration of the ancestor-resolution loop of
`can_remove_host_node`: re-resolve the name, find its ancestor of the required
type, and raise `ValueError` if there is none. -/
def resolve_ancestor_pair (t : CephTree) (required_type name : String) :
    Except String (NodeInfo × NodeInfo) := do
  let descendent ← t.get_node name
  match t.find_ancestor descendent required_type with
  | none =>
    .error ("An ancestor for the host node " ++ descendent.str ++
      " could not be found.")
  | some ancestor => .ok (ancestor, descendent)

end CephTree

/-- Mirrors `ancestors_map[ancestor].append(descendent)` on the
`defaultdict(list)`: if the key is present (Python key equality on a
NamedTuple is field-wise equality) the value is appended to its list, keeping
the key's insertion position; otherwise a new singleton entry is appended. -/
def insertGroup : List (NodeInfo × List NodeInfo) → NodeInfo → NodeInfo →
    List (NodeInfo × List NodeInfo)
  | [], ancestor, descendent => [(ancestor, [descendent])]
  | (k, ds) :: rest, ancestor, descendent =>
    if k = ancestor then
      (k, ds ++ [descendent]) :: rest
    else
      (k, ds) :: insertGroup rest ancestor descendent

namespace CephTree

/-- Mirrors the first loop of `can_remove_host_node`, which builds
`ancestors_map` while raising on any unresolved ancestor. -/
def build_ancestors_map (t : CephTree) (required_type : String) :
    List String → List (NodeInfo × List NodeInfo) →
    Except String (List (NodeInfo × List NodeInfo))
  | [], acc => .ok acc
  | name :: rest, acc => do
    let p ← t.resolve_ancestor_pair required_type name
    t.build_ancestors_map required_type rest (insertGroup acc p.1 p.2)

end CephTree

/-- Mirrors the second loop of `can_remove_host_node`: for each ancestor
group, sum the descendents' `kb_used` and `kb_avail` and return `False` as
soon as `ancestor.kb_avail - total_avail <= total_used`; `True` when every
group passes. -/
def checkGroups : List (NodeInfo × List NodeInfo) → Bool
  | [] => true
  | (ancestor, descendents) :: rest =>
    let total_descendent_kb_used := (descendents.map NodeInfo.kb_used).sum
    let total_descendent_kb_avail := (descendents.map NodeInfo.kb_avail).sum
    if ancestor.kb_avail - total_descendent_kb_avail ≤ total_descendent_kb_used then
      false
    else
      checkGroups rest

namespace CephTree

/-- Mirrors `CephTree.can_remove_host_node(*names, required_ancestor_type)`.
`names` is the positional-argument tuple, kept as a list. -/
def can_remove_host_node (t : CephTree) (names : List String)
    (required_ancestor_type : String := "root") : Except String Bool :=
  if !SUPPORTED_ANCESTOR_TYPES.contains required_ancestor_type then
    .error ("`" ++ required_ancestor_type ++ "` is not supported")
  else do
    let _ ← t.validate_hosts names
    let groups ← t.build_ancestors_map required_ancestor_type names []
    .ok (checkGroups groups)

end CephTree

/-- Sequencing of a fallible resolution over a list (the monadic spine of the
ancestors-map loop, separated from the grouping for the proofs below). -/
def mapExcept {α β ε : Type} (f : α → Except ε β) : List α → Except ε (List β)
  | [] => .ok []
  | x :: xs => do
    let y ← f x
    let ys ← mapExcept f xs
    .ok (y :: ys)

/-- Grouping a resolved (ancestor, descendent) list the way the
`defaultdict(list)` loop does. -/
def groupPairs (ps : List (NodeInfo × NodeInfo)) : List (NodeInfo × List NodeInfo) :=
  ps.foldl (fun acc p => insertGroup acc p.1 p.2) []

/-- The descendents that the ancestors-map associates with key `a`: the
second components of the pairs whose first component is `a`, in order. -/
def filterByKey (a : NodeInfo) (ps : List (NodeInfo × NodeInfo)) : List NodeInfo :=
  (ps.filter (fun p => p.1 == a)).map Prod.snd

/-- First-match lookup in an ancestors-map association list. -/
def findGroup : List (NodeInfo × List NodeInfo) → NodeInfo → Option (List NodeInfo)
  | [], _ => none
  | (k, ds) :: rest, a => if k = a then some ds else findGroup rest a

/-- The per-group capacity condition on which `can_remove_host_node` returns
`False`: the ancestor's free space minus the group's free space does not
exceed the data volume stored on the group. -/
def groupLacksSpace (g : NodeInfo × List NodeInfo) : Prop :=
  g.1.kb_avail - (g.2.map NodeInfo.kb_avail).sum ≤ (g.2.map NodeInfo.kb_used).sum

instance (g : NodeInfo × List NodeInfo) : Decidable (groupLacksSpace g) := by
  unfold groupLacksSpace
  infer_instance

/-- Mirrors the loop body of `CephCommon.check_cluster_health`: classify one
unit's health string and append the corresponding partial. The first branch is
guarded by `"HEALTH_OK" in cluster_health and result.success`, exactly as in
the source. `os.linesep` is modelled as a newline. -/
def healthStep (r : Result) (entry : String × String) : Result :=
  let unit := entry.1
  let cluster_health := entry.2
  if strContains cluster_health "HEALTH_OK" && r.success then
    r.add_partial_result Severity.OK (unit ++ ": Ceph cluster is healthy")
  else if strContains cluster_health "HEALTH_WARN" then
    r.add_partial_result Severity.FAIL
      (unit ++ ": Ceph cluster is in a warning state\n  " ++ cluster_health)
  else if strContains cluster_health "HEALTH_ERR" then
    r.add_partial_result Severity.FAIL
      (unit ++ ": Ceph cluster is unhealthy\n  " ++ cluster_health)
  else
    r.add_partial_result Severity.FAIL
      (unit ++ ": Ceph cluster is in an unknown state\n  " ++ cluster_health)

/-- Mirrors `CephCommon.check_cluster_health`. The external action layer is
out of scope: its materialized outcome, the per-unit health strings of
`action_map` in iteration order, is the input. After the loop the source
replaces the result with a FAIL singleton when `action_map` is empty. -/
def check_cluster_health (action_map : List (String × String)) : Result :=
  let result := action_map.foldl healthStep Result.empty
  if action_map.isEmpty then
    Result.single Severity.FAIL "Ceph cluster status could not be obtained"
  else
    result

/-- Reference classification for the amended cluster-health claim: the
partials the loop produces, threading the "no FAIL partial so far" flag that
the source reads back through `result.success`. -/
def healthSpecAux (ok : Bool) : List (String × String) → List (Severity × String)
  | [] => []
  | (unit, cluster_health) :: rest =>
    if strContains cluster_health "HEALTH_OK" && ok then
      (Severity.OK, unit ++ ": Ceph cluster is healthy") :: healthSpecAux ok rest
    else if strContains cluster_health "HEALTH_WARN" then
      (Severity.FAIL, unit ++ ": Ceph cluster is in a warning state\n  " ++ cluster_health)
        :: healthSpecAux false rest
    else if strContains cluster_health "HEALTH_ERR" then
      (Severity.FAIL, unit ++ ": Ceph cluster is unhealthy\n  " ++ cluster_health)
        :: healthSpecAux false rest
    else
      (Severity.FAIL, unit ++ ": Ceph cluster is in an unknown state\n  " ++ cluster_health)
        :: healthSpecAux false rest

/-- The action payload a `get-quorum-status` action delivers to
`CephMon._parse_quorum_status`: either a JSON document carrying
`monmap.mons[*].name` and `quorum_names`, or a payload on which parsing
raises (`json.decoder.JSONDecodeError` on malformed JSON, `KeyError` on a
missing key). -/
inductive QuorumPayload
  | parsed (known_names quorum_names : List String)
  | malformed
deriving DecidableEq, Repr

/-- One entry of the `run_action_on_all("get-quorum-status")` result map:
the completed action, with its entity id (used in the parse-failure message)
and its payload. -/
structure MonAction where
  entityId : String
  payload : QuorumPayload
deriving DecidableEq, Repr

/-- Mirrors `CephMon._parse_quorum_status`: build the set of known monitor
names from `monmap.mons` and return its size together with the set
`quorum_names` of online monitors; parse errors are surfaced as `Except`
errors (they are exceptions in the source, caught by `check_quorum`). -/
def parse_quorum_status (action : MonAction) : Except Unit (Nat × Finset String) :=
  match action.payload with
  | .parsed known_names quorum_names =>
    .ok (known_names.toFinset.card, quorum_names.toFinset)
  | .malformed => .error ()

/-- Mirrors the loop body of `CephMon.check_quorum`: parse one unit's quorum
status; on success fail the unit when the online monitors left after removing
the affected hosts are at most half of the known monitors
(`mons_after_change <= mon_count // 2`); on a parse error append the parse
failure partial instead of propagating the exception. -/
def quorumStep (affected_hosts : Finset String) (r : Result)
    (entry : String × MonAction) : Result :=
  match parse_quorum_status entry.2 with
  | .ok (mon_count, online_mons) =>
    let mons_after_change := (online_mons \ affected_hosts).card
    if mons_after_change ≤ mon_count / 2 then
      r.add_partial_result Severity.FAIL
        ("Rebooting or shutting down the unit " ++ entry.1 ++
          " will lose ceph-mon quorum")
    else
      r
  | .error _ =>
    r.add_partial_result Severity.FAIL
      ("Failed to parse quorum status from action " ++ entry.2.entityId ++ ".")

/-- Mirrors `CephMon.check_quorum`. `action_results` is the materialized
`run_action_on_all` map in iteration order and `affected_hosts` the hostnames
of the verified units (a Python set, built here from the hostname list). -/
def check_quorum (action_results : List (String × MonAction))
    (affected_hostnames : List String) : Result :=
  let affected_hosts := affected_hostnames.toFinset
  let result := action_results.foldl (quorumStep affected_hosts) Result.empty
  result.orDefault (Result.single Severity.OK "Ceph-mon quorum check passed.")

/-- The partials one entry of the quorum loop contributes. -/
def quorumUnitPartials (affected_hosts : Finset String)
    (entry : String × MonAction) : List (Severity × String) :=
  match parse_quorum_status entry.2 with
  | .ok (mon_count, online_mons) =>
    if (online_mons \ affected_hosts).card ≤ mon_count / 2 then
      [(Severity.FAIL,
        "Rebooting or shutting down the unit " ++ entry.1 ++
          " will lose ceph-mon quorum")]
    else
      []
  | .error _ =>
    [(Severity.FAIL,
      "Failed to parse quorum status from action " ++ entry.2.entityId ++ ".")]

/-- One pool record of the `list-pools detail=true` output, as consumed by
`CephCommon.get_replication_number`. -/
structure PoolDetail where
  size : Int
  min_size : Int
deriving DecidableEq, Repr

/-- Mirrors `CephCommon.get_replication_number`: `None` when the pool list is
empty, otherwise `min(pool["size"] - pool["min_size"] for pool in pools)`. -/
def get_replication_number (pools : List PoolDetail) : Option Int :=
  match pools.map (fun pool => pool.size - pool.min_size) with
  | [] => none
  | x :: xs => some (xs.foldl min x)

/-- The per-application snapshot `CephOsd.check_replication_number` consumes:
the application's pools, the entity ids of the verified units belonging to
the application, and the entity ids of its units whose workload status is not
active. The transport fetching these is out of scope. -/
structure OsdApp where
  app_name : String
  pools : List PoolDetail
  verified_unit_ids : List String
  inactive_unit_ids : List String
deriving DecidableEq, Repr

/-- Mirrors the loop body of `CephOsd.check_replication_number`: skip an
application with no pools (`get_replication_number` returned `None`);
otherwise fail when the union of the verified units and the inactive units
has more elements than the minimum replication number. -/
def replicationStep (r : Result) (app : OsdApp) : Result :=
  match get_replication_number app.pools with
  | none => r
  | some min_replication_number =>
    let units := app.verified_unit_ids.toFinset
    let inactive_units := app.inactive_unit_ids.toFinset
    if ((units ∪ inactive_units).card : Int) > min_replication_number then
      r.add_partial_result Severity.FAIL
        ("The minimum number of replicas in \x27" ++ app.app_name ++ "\x27 is " ++
          toString min_replication_number ++
          " and it\x27s not safe to reboot/shutdown " ++ toString units.card ++
          " units. " ++ toString inactive_units.card ++ " units are not active.")
    else
      r

/-- Mirrors `CephOsd.check_replication_number` over the materialized
per-application snapshots (iteration order of `ceph_mon_app_map`). -/
def check_replication_number (apps : List OsdApp) : Result :=
  (apps.foldl replicationStep Result.empty).orDefault
    (Result.single Severity.OK "Minimum replica number check passed.")

/-- The partials one application contributes to the replication check. -/
def replicationAppPartials (app : OsdApp) : List (Severity × String) :=
  match get_replication_number app.pools with
  | none => []
  | some min_replication_number =>
    let units := app.verified_unit_ids.toFinset
    let inactive_units := app.inactive_unit_ids.toFinset
    if ((units ∪ inactive_units).card : Int) > min_replication_number then
      [(Severity.FAIL,
        "The minimum number of replicas in \x27" ++ app.app_name ++ "\x27 is " ++
          toString min_replication_number ++
          " and it\x27s not safe to reboot/shutdown " ++ toString units.card ++
          " units. " ++ toString inactive_units.card ++ " units are not active.")]
    else
      []

/-- Modelled from the spec: `checks_executor` lives in
juju_verify/verifiers/result.py, which is not part of the sources provided;
per spec section 4.4 it invokes the checks in order, converts a raised
exception into a FAIL partial carrying the check's identity and the exception
message, and folds every check's Result via combine in invocation order. A
check is modelled as its name together with its outcome: either the Result it
returned or the exception it raised. -/
def checks_executor (checks : List (String × Except String Result)) : Result :=
  checks.foldl
    (fun acc check =>
      match check.2 with
      | .ok r => acc.combine r
      | .error e =>
        acc.combine
          (Result.single Severity.FAIL
            ("Check " ++ check.1 ++ " failed with error: " ++ e)))
    Result.empty

/-- Mirrors `CephMon.verify_reboot`: run the version gate through the
executor; if it did not succeed return it unchanged, otherwise combine it
with the executor run of the quorum check followed by the cluster-health
check. The three checks are passed as materialized outcomes; that the gate
failing means the other two checks are never executed is expressed below as
the output being independent of them. -/
def verify_reboot_mon (version quorum health : String × Except String Result) :
    Result :=
  let ceph_version := checks_executor [version]
  if ceph_version.success = false then
    ceph_version
  else
    ceph_version.combine (checks_executor [quorum, health])

/-
Concrete inputs used by the witnesses and examples below.
-/

/-- The synthetic tree of the ancestor-resolution property:
root(-1) -> rack(-2) -> host(-4) -> osd(0). -/
def synRoot : NodeInfo := ⟨-1, "root", 10, "root", 400, 100, 300, some [-2]⟩

/-- Rack node of the synthetic tree. -/
def synRack : NodeInfo := ⟨-2, "rack.0", 3, "rack", 400, 100, 300, some [-4]⟩

/-- Host node of the synthetic tree. -/
def synHost : NodeInfo := ⟨-4, "host.0", 1, "host", 400, 100, 300, some [0]⟩

/-- Leaf device node of the synthetic tree. -/
def synOsd : NodeInfo := ⟨0, "osd.0", 0, "osd", 400, 100, 300, none⟩

/-- The synthetic tree root(-1) -> rack(-2) -> host(-4) -> osd(0). -/
def syntheticTree : CephTree := ⟨[synRoot, synRack, synHost, synOsd]⟩

/-- Capacity-boundary tree: ancestor with kb_avail = 1000 over two candidate
hosts, each with kb_used = 100 and kb_avail = 400. -/
def tree1000 : CephTree := ⟨[
  ⟨-1, "root", 10, "root", 3000, 200, 1000, some [-2, -3]⟩,
  ⟨-2, "host.0", 1, "host", 600, 100, 400, some [0]⟩,
  ⟨-3, "host.1", 1, "host", 600, 100, 400, some [1]⟩,
  ⟨0, "osd.0", 0, "osd", 600, 100, 400, none⟩,
  ⟨1, "osd.1", 0, "osd", 600, 100, 400, none⟩]⟩

/-- Same tree with the ancestor's kb_avail raised to 1001. -/
def tree1001 : CephTree := ⟨[
  ⟨-1, "root", 10, "root", 3000, 200, 1001, some [-2, -3]⟩,
  ⟨-2, "host.0", 1, "host", 600, 100, 400, some [0]⟩,
  ⟨-3, "host.1", 1, "host", 600, 100, 400, some [1]⟩,
  ⟨0, "osd.0", 0, "osd", 600, 100, 400, none⟩,
  ⟨1, "osd.1", 0, "osd", 600, 100, 400, none⟩]⟩

/-- Two disjoint rack-level ancestor groups, rack.0 safe (1000 - 100 > 100)
and rack.1 unsafe (150 - 100 <= 100). -/
def twoGroupTree : CephTree := ⟨[
  ⟨-1, "root", 10, "root", 3000, 200, 1150, some [-2, -3]⟩,
  ⟨-2, "rack.0", 3, "rack", 1500, 100, 1000, some [-4]⟩,
  ⟨-3, "rack.1", 3, "rack", 300, 100, 150, some [-5]⟩,
  ⟨-4, "host.0", 1, "host", 300, 100, 100, some [0]⟩,
  ⟨-5, "host.1", 1, "host", 300, 100, 100, some [1]⟩,
  ⟨0, "osd.0", 0, "osd", 300, 100, 100, none⟩,
  ⟨1, "osd.1", 0, "osd", 300, 100, 100, none⟩]⟩

/-- A tree whose host has no enclosing ancestor at all. -/
def orphanHostTree : CephTree := ⟨[
  ⟨-4, "host.0", 1, "host", 300, 100, 100, some [0]⟩,
  ⟨0, "osd.0", 0, "osd", 300, 100, 100, none⟩]⟩

/-- Replication example of the spec: one pool with size 3 and min_size 2
(margin 1), one unit to remove, no inactive units. -/
def replAppSafe : OsdApp := ⟨"ceph-osd", [⟨3, 2⟩], ["ceph-osd/0"], []⟩

/-- Replication example of the spec: margin 1, one unit to remove and one
already-inactive unit. -/
def replAppExceeding : OsdApp := ⟨"ceph-osd", [⟨3, 2⟩], ["ceph-osd/0"], ["ceph-osd/1"]⟩

/-- An application with no pools at all. -/
def replAppNoPools : OsdApp := ⟨"ceph-osd", [], ["ceph-osd/0"], ["ceph-osd/1"]⟩

/-- A version gate outcome that succeeds. -/
def versionGateOk : String × Except String Result :=
  ("check_version", .ok (Result.single Severity.OK "Minimum version check passed."))

/-- A version gate outcome that fails. -/
def versionGateFail : String × Except String Result :=
  ("check_version", .ok (Result.single Severity.FAIL "juju agent version is below minimum"))

/-- A quorum check outcome. -/
def quorumOutcomeOk : String × Except String Result :=
  ("check_quorum", .ok (Result.single Severity.OK "Ceph-mon quorum check passed."))

/-- A cluster-health check outcome that raised. -/
def healthOutcomeRaised : String × Except String Result :=
  ("check_ceph_cluster_health", .error "connection lost")

/-
Helper lemmas.
-/

theorem success_add_partial_ok (r : Result) (msg : String) :
    (r.add_partial_result Severity.OK msg).success = r.success := by
  simp [Result.add_partial_result, Result.success, List.all_append]

theorem success_add_partial_fail (r : Result) (msg : String) :
    (r.add_partial_result Severity.FAIL msg).success = false := by
  simp [Result.add_partial_result, Result.success, List.all_append]

theorem checkGroups_eq_true_iff (gs : List (NodeInfo × List NodeInfo)) :
    checkGroups gs = true ↔ ∀ g ∈ gs, ¬ groupLacksSpace g := by
  induction gs with
  | nil => simp [checkGroups]
  | cons g rest ih =>
    obtain ⟨a, ds⟩ := g
    by_cases hu : groupLacksSpace (a, ds)
    · have hu' := hu
      unfold groupLacksSpace at hu'
      simp only [checkGroups, if_pos hu']
      simp only [List.mem_cons]
      constructor
      · intro h
        exact absurd h (by simp)
      · intro h
        exact absurd (h (a, ds) (Or.inl rfl)) (by simpa using hu)
    · have hu' := hu
      unfold groupLacksSpace at hu'
      simp only [checkGroups, if_neg hu']
      rw [ih]
      constructor
      · intro h g hg
        rcases List.mem_cons.mp hg with hg | hg
        · subst hg; exact hu
        · exact h g hg
      · intro h g hg
        exact h g (List.mem_cons_of_mem _ hg)

theorem checkGroups_eq_false_iff (gs : List (NodeInfo × List NodeInfo)) :
    checkGroups gs = false ↔ ∃ g ∈ gs, groupLacksSpace g := by
  constructor
  · intro h
    by_contra hn
    push_neg at hn
    have := (checkGroups_eq_true_iff gs).mpr hn
    rw [this] at h
    cases h
  · intro ⟨g, hg, hu⟩
    cases hcg : checkGroups gs with
    | false => rfl
    | true =>
      exact absurd hu ((checkGroups_eq_true_iff gs).mp hcg g hg)

theorem ok_bind {ε α β : Type} (x : α) (f : α → Except ε β) :
    (Except.ok x >>= f) = f x := rfl

theorem error_bind {ε α β : Type} (e : ε) (f : α → Except ε β) :
    ((Except.error e : Except ε α) >>= f) = Except.error e := rfl

theorem mapExcept_cons_ok {α β ε : Type} (f : α → Except ε β) (x : α)
    (l : List α) (ys : List β) :
    mapExcept f (x :: l) = .ok ys ↔
      ∃ y zs, f x = .ok y ∧ mapExcept f l = .ok zs ∧ ys = y :: zs := by
  cases hf : f x with
  | error e =>
    simp [mapExcept, hf, error_bind]
  | ok y =>
    cases hm : mapExcept f l with
    | error e =>
      simp [mapExcept, hf, hm, ok_bind, error_bind]
    | ok zs =>
      simp only [mapExcept, hf, hm, ok_bind, Except.ok.injEq]
      constructor
      · intro h
        exact ⟨y, zs, rfl, rfl, h.symm⟩
      · intro ⟨y', zs', hy, hz, hys⟩
        subst hy
        subst hz
        exact hys.symm

theorem mapExcept_ok_mem {α β ε : Type} (f : α → Except ε β) (l : List α)
    (ys : List β) (h : mapExcept f l = .ok ys) :
    ∀ x ∈ l, ∃ y, f x = .ok y := by
  induction l generalizing ys with
  | nil => intro x hx; cases hx
  | cons a as ih =>
    obtain ⟨y, zs, hy, hz, _⟩ := (mapExcept_cons_ok f a as ys).mp h
    intro x hx
    rcases List.mem_cons.mp hx with hx | hx
    · subst hx; exact ⟨y, hy⟩
    · exact ih zs hz x hx

theorem mapExcept_perm {α β ε : Type} (f : α → Except ε β) {l l' : List α}
    (hp : l.Perm l') (ys : List β) (h : mapExcept f l = .ok ys) :
    ∃ ys', mapExcept f l' = .ok ys' ∧ ys.Perm ys' := by
  induction hp generalizing ys with
  | nil =>
    cases h
    exact ⟨[], rfl, List.Perm.refl _⟩
  | cons x hp ih =>
    obtain ⟨y, zs, hy, hz, hys⟩ := (mapExcept_cons_ok f _ _ ys).mp h
    obtain ⟨zs', hz', hpz⟩ := ih zs hz
    refine ⟨y :: zs', ?_, ?_⟩
    · rw [mapExcept_cons_ok]
      exact ⟨y, zs', hy, hz', rfl⟩
    · rw [hys]
      exact hpz.cons y
  | swap a b l =>
    obtain ⟨y, zs, hy, hz, hys⟩ := (mapExcept_cons_ok f _ _ ys).mp h
    obtain ⟨y', zs', hy', hz', hys'⟩ := (mapExcept_cons_ok f _ _ zs).mp hz
    refine ⟨y' :: y :: zs', ?_, ?_⟩
    · rw [mapExcept_cons_ok]
      refine ⟨y', y :: zs', hy', ?_, rfl⟩
      rw [mapExcept_cons_ok]
      exact ⟨y, zs', hy, hz', rfl⟩
    · rw [hys, hys']
      exact List.Perm.swap y' y zs'
  | trans hp1 hp2 ih1 ih2 =>
    obtain ⟨ys1, h1, hp1'⟩ := ih1 ys h
    obtain ⟨ys2, h2, hp2'⟩ := ih2 ys1 h1
    exact ⟨ys2, h2, hp1'.trans hp2'⟩

theorem validate_hosts_ok_iff (t : CephTree) (names : List String) :
    t.validate_hosts names = .ok () ↔
      ∀ n ∈ names, ∃ node, t.get_node n = .ok node ∧ node.«type» = "host" := by
  induction names with
  | nil => simp [CephTree.validate_hosts]
  | cons a as ih =>
    cases hg : t.get_node a with
    | error e =>
      simp only [CephTree.validate_hosts, hg, error_bind]
      constructor
      · intro h; cases h
      · intro h
        obtain ⟨node, hn, _⟩ := h a (List.mem_cons_self a as)
        rw [hg] at hn
        cases hn
    | ok node =>
      by_cases ht : node.«type» = "host"
      · have hb : (node.«type» == "host") = true := by simpa using ht
        simp only [CephTree.validate_hosts, hg, ok_bind, hb, if_true]
        rw [ih]
        constructor
        · intro h n hn
          rcases List.mem_cons.mp hn with hn | hn
          · subst hn; exact ⟨node, hg, ht⟩
          · exact h n hn
        · intro h n hn
          exact h n (List.mem_cons_of_mem _ hn)
      · have hb : (node.«type» == "host") = false := by simpa using ht
        simp only [CephTree.validate_hosts, hg, ok_bind, hb, Bool.false_eq_true,
          if_false]
        constructor
        · intro h; cases h
        · intro h
          obtain ⟨node', hn, ht'⟩ := h a (List.mem_cons_self a as)
          rw [hg] at hn
          simp only [Except.ok.injEq] at hn
          subst hn
          exact absurd ht' ht

theorem build_ancestors_map_eq (t : CephTree) (required_type : String)
    (names : List String) (acc : List (NodeInfo × List NodeInfo)) :
    t.build_ancestors_map required_type names acc =
      match mapExcept (t.resolve_ancestor_pair required_type) names with
      | .error e => .error e
      | .ok ps => .ok (ps.foldl (fun m p => insertGroup m p.1 p.2) acc) := by
  induction names generalizing acc with
  | nil => simp [CephTree.build_ancestors_map, mapExcept]
  | cons a as ih =>
    cases hr : t.resolve_ancestor_pair required_type a with
    | error e =>
      simp [CephTree.build_ancestors_map, mapExcept, hr, error_bind]
    | ok p =>
      cases hm : mapExcept (t.resolve_ancestor_pair required_type) as with
      | error e =>
        simp only [CephTree.build_ancestors_map, mapExcept, hr, hm, ok_bind,
          error_bind]
        rw [ih]
        simp [hm]
      | ok ps =>
        simp only [CephTree.build_ancestors_map, mapExcept, hr, hm, ok_bind]
        rw [ih]
        simp [hm, List.foldl_cons]

theorem can_remove_host_node_ok_iff (t : CephTree) (names : List String)
    (required_ancestor_type : String) (b : Bool) :
    t.can_remove_host_node names required_ancestor_type = .ok b ↔
      CephTree.SUPPORTED_ANCESTOR_TYPES.contains required_ancestor_type = true ∧
      t.validate_hosts names = .ok () ∧
      ∃ ps, mapExcept (t.resolve_ancestor_pair required_ancestor_type) names = .ok ps ∧
        b = checkGroups (groupPairs ps) := by
  unfold CephTree.can_remove_host_node
  cases hs : CephTree.SUPPORTED_ANCESTOR_TYPES.contains required_ancestor_type with
  | false =>
    simp only [hs, Bool.not_false, if_true]
    constructor
    · intro h; cases h
    · intro ⟨h, _⟩; cases h
  | true =>
    simp only [hs, Bool.not_true, Bool.false_eq_true, if_false]
    cases hv : t.validate_hosts names with
    | error e =>
      simp only [hv, error_bind]
      constructor
      · intro h; cases h
      · intro ⟨_, h, _⟩; cases h
    | ok u =>
      cases u
      simp only [hv, ok_bind]
      rw [build_ancestors_map_eq]
      cases hm : mapExcept (t.resolve_ancestor_pair required_ancestor_type) names with
      | error e =>
        simp only [error_bind]
        constructor
        · intro h; cases h
        · intro ⟨_, _, ps, hps, _⟩
          cases hps
      | ok ps =>
        simp only [ok_bind, Except.ok.injEq]
        constructor
        · intro h
          exact ⟨by trivial, by trivial, ps, by trivial, h.symm⟩
        · intro ⟨_, _, ps', hps, hb⟩
          have hps' : ps = ps' := by simpa using hps
          subst hps'
          exact hb.symm

theorem groupPairs_append_singleton (ps : List (NodeInfo × NodeInfo))
    (p : NodeInfo × NodeInfo) :
    groupPairs (ps ++ [p]) = insertGroup (groupPairs ps) p.1 p.2 := by
  simp [groupPairs, List.foldl_append]

theorem findGroup_insertGroup (gs : List (NodeInfo × List NodeInfo))
    (k d : NodeInfo) (a : NodeInfo) :
    findGroup (insertGroup gs k d) a =
      if a = k then some ((findGroup gs k).getD [] ++ [d]) else findGroup gs a := by
  induction gs with
  | nil =>
    by_cases hak : a = k
    · subst hak
      simp [insertGroup, findGroup]
    · simp [insertGroup, findGroup, hak, Ne.symm hak]
  | cons g rest ih =>
    obtain ⟨k', ds'⟩ := g
    by_cases hk : k' = k
    · subst hk
      by_cases hak : a = k'
      · subst hak
        simp [insertGroup, findGroup]
      · simp [insertGroup, findGroup, hak, Ne.symm hak]
    · by_cases hak : a = k'
      · subst hak
        simp [insertGroup, findGroup, hk, Ne.symm hk]
      · simp [insertGroup, findGroup, hk, hak, Ne.symm hak, ih]

theorem keys_insertGroup (gs : List (NodeInfo × List NodeInfo)) (k d : NodeInfo) :
    (insertGroup gs k d).map Prod.fst =
      if k ∈ gs.map Prod.fst then gs.map Prod.fst else gs.map Prod.fst ++ [k] := by
  induction gs with
  | nil => simp [insertGroup]
  | cons g rest ih =>
    obtain ⟨k', ds'⟩ := g
    by_cases hk : k' = k
    · subst hk
      simp [insertGroup]
    · simp only [insertGroup, if_neg hk, List.map_cons, ih, List.mem_cons]
      by_cases hmem : k ∈ rest.map Prod.fst
      · simp [hmem, Ne.symm hk]
      · simp [hmem, Ne.symm hk]

theorem keys_groupPairs_nodup (ps : List (NodeInfo × NodeInfo)) :
    ((groupPairs ps).map Prod.fst).Nodup := by
  induction ps using List.reverseRecOn with
  | nil => simp [groupPairs]
  | append_singleton ps p ih =>
    rw [groupPairs_append_singleton, keys_insertGroup]
    by_cases hmem : p.1 ∈ (groupPairs ps).map Prod.fst
    · simpa [hmem] using ih
    · simp only [hmem, if_false]
      simp [List.nodup_append, ih, hmem]

theorem filterByKey_nil (a : NodeInfo) : filterByKey a [] = [] := rfl

theorem filterByKey_cons (a : NodeInfo) (p : NodeInfo × NodeInfo)
    (ps : List (NodeInfo × NodeInfo)) :
    filterByKey a (p :: ps) =
      if p.1 = a then p.2 :: filterByKey a ps else filterByKey a ps := by
  by_cases h : p.1 = a
  · simp [filterByKey, List.filter_cons, h]
  · simp [filterByKey, List.filter_cons, h]

theorem filterByKey_append (a : NodeInfo) (ps qs : List (NodeInfo × NodeInfo)) :
    filterByKey a (ps ++ qs) = filterByKey a ps ++ filterByKey a qs := by
  simp [filterByKey, List.filter_append]

theorem filterByKey_eq_nil_of_not_mem (a : NodeInfo)
    (ps : List (NodeInfo × NodeInfo)) (h : a ∉ ps.map Prod.fst) :
    filterByKey a ps = [] := by
  induction ps with
  | nil => rfl
  | cons p rest ih =>
    rw [filterByKey_cons]
    simp only [List.map_cons, List.mem_cons] at h
    push_neg at h
    rw [if_neg (fun hp => h.1 hp.symm)]
    exact ih h.2

theorem findGroup_groupPairs (ps : List (NodeInfo × NodeInfo)) (a : NodeInfo) :
    findGroup (groupPairs ps) a =
      if a ∈ ps.map Prod.fst then some (filterByKey a ps) else none := by
  induction ps using List.reverseRecOn with
  | nil => simp [groupPairs, findGroup, filterByKey]
  | append_singleton ps p ih =>
    rw [groupPairs_append_singleton, findGroup_insertGroup]
    by_cases hap : a = p.1
    · subst hap
      rw [if_pos rfl, ih]
      have hm : p.1 ∈ (ps ++ [p]).map Prod.fst := by simp
      rw [if_pos hm, filterByKey_append]
      by_cases hmem : p.1 ∈ ps.map Prod.fst
      · rw [if_pos hmem]
        simp [filterByKey_cons, filterByKey_nil]
      · rw [if_neg hmem, filterByKey_eq_nil_of_not_mem _ ps hmem]
        simp [filterByKey_cons, filterByKey_nil]
    · rw [if_neg hap, ih]
      by_cases hmem : a ∈ ps.map Prod.fst
      · have hm : a ∈ (ps ++ [p]).map Prod.fst := by simp [hmem]
        rw [if_pos hmem, if_pos hm, filterByKey_append]
        simp [filterByKey_cons, Ne.symm hap, filterByKey_nil]
      · have hm : a ∉ (ps ++ [p]).map Prod.fst := by
          simp only [List.map_append, List.mem_append, List.map_cons,
            List.map_nil, List.mem_singleton]
          rintro (h | h)
          · exact hmem h
          · exact hap h
        rw [if_neg hmem, if_neg hm]

theorem findGroup_some_mem (gs : List (NodeInfo × List NodeInfo)) (a : NodeInfo)
    (ds : List NodeInfo) (h : findGroup gs a = some ds) : (a, ds) ∈ gs := by
  induction gs with
  | nil => cases h
  | cons g rest ih =>
    obtain ⟨k, ds'⟩ := g
    by_cases hk : k = a
    · subst hk
      simp only [findGroup] at h
      simp at h
      subst h
      exact List.mem_cons_self _ _
    · simp only [findGroup] at h
      rw [if_neg hk] at h
      exact List.mem_cons_of_mem _ (ih h)

theorem mem_findGroup_of_nodup (gs : List (NodeInfo × List NodeInfo))
    (a : NodeInfo) (ds : List NodeInfo) (hnd : (gs.map Prod.fst).Nodup)
    (h : (a, ds) ∈ gs) : findGroup gs a = some ds := by
  induction gs with
  | nil => cases h
  | cons g rest ih =>
    obtain ⟨k, ds'⟩ := g
    simp only [List.map_cons, List.nodup_cons] at hnd
    rcases List.mem_cons.mp h with h | h
    · injection h with hk hds
      subst hk
      subst hds
      simp [findGroup]
    · have hka : k ≠ a := by
        intro hk
        subst hk
        exact hnd.1 (List.mem_map.mpr ⟨(k, ds), h, rfl⟩)
      simp only [findGroup]
      rw [if_neg hka]
      exact ih hnd.2 h

theorem mem_groupPairs_iff (ps : List (NodeInfo × NodeInfo)) (a : NodeInfo)
    (ds : List NodeInfo) :
    (a, ds) ∈ groupPairs ps ↔ a ∈ ps.map Prod.fst ∧ ds = filterByKey a ps := by
  constructor
  · intro h
    have hf := mem_findGroup_of_nodup _ a ds (keys_groupPairs_nodup ps) h
    rw [findGroup_groupPairs] at hf
    by_cases hmem : a ∈ ps.map Prod.fst
    · rw [if_pos hmem] at hf
      exact ⟨hmem, (Option.some.inj hf).symm⟩
    · rw [if_neg hmem] at hf
      cases hf
  · intro ⟨hmem, hds⟩
    subst hds
    apply findGroup_some_mem
    rw [findGroup_groupPairs, if_pos hmem]

theorem mem_keys_groupPairs (ps : List (NodeInfo × NodeInfo)) (a : NodeInfo) :
    a ∈ (groupPairs ps).map Prod.fst ↔ a ∈ ps.map Prod.fst := by
  constructor
  · intro h
    obtain ⟨g, hg, hfst⟩ := List.mem_map.mp h
    have hg' : (a, g.2) ∈ groupPairs ps := by
      obtain ⟨g1, g2⟩ := g
      simp only at hfst
      subst hfst
      exact hg
    exact ((mem_groupPairs_iff ps a g.2).mp hg').1
  · intro h
    exact List.mem_map.mpr
      ⟨(a, filterByKey a ps), (mem_groupPairs_iff ps a _).mpr ⟨h, rfl⟩, rfl⟩

theorem result_eq_of_partials {a b : Result} (h : a.partials = b.partials) :
    a = b := by
  cases a
  cases b
  cases h
  rfl

theorem filterByKey_perm (a : NodeInfo) {ps ps' : List (NodeInfo × NodeInfo)}
    (hp : ps.Perm ps') : (filterByKey a ps).Perm (filterByKey a ps') :=
  (hp.filter _).map _

theorem groupLacksSpace_congr_of_perm (a : NodeInfo) {ds ds' : List NodeInfo}
    (hp : ds.Perm ds') : groupLacksSpace (a, ds) ↔ groupLacksSpace (a, ds') := by
  unfold groupLacksSpace
  rw [(hp.map NodeInfo.kb_avail).sum_eq, (hp.map NodeInfo.kb_used).sum_eq]

theorem groups_safe_transfer {ps ps' : List (NodeInfo × NodeInfo)}
    (hp : ps.Perm ps') (h : ∀ g ∈ groupPairs ps, ¬ groupLacksSpace g) :
    ∀ g ∈ groupPairs ps', ¬ groupLacksSpace g := by
  intro g hg
  obtain ⟨a, ds⟩ := g
  obtain ⟨hmem', hds⟩ := (mem_groupPairs_iff ps' a ds).mp hg
  have hmem : a ∈ ps.map Prod.fst := ((hp.map Prod.fst).mem_iff).mpr hmem'
  have hsafe := h _ ((mem_groupPairs_iff ps a _).mpr ⟨hmem, rfl⟩)
  subst hds
  intro hu
  exact hsafe ((groupLacksSpace_congr_of_perm a (filterByKey_perm a hp)).mpr hu)

theorem checkGroups_groupPairs_perm {ps ps' : List (NodeInfo × NodeInfo)}
    (hp : ps.Perm ps') : checkGroups (groupPairs ps) = checkGroups (groupPairs ps') := by
  cases hb : checkGroups (groupPairs ps) with
  | true =>
    have h1 := (checkGroups_eq_true_iff _).mp hb
    exact ((checkGroups_eq_true_iff _).mpr (groups_safe_transfer hp h1)).symm
  | false =>
    cases hb' : checkGroups (groupPairs ps') with
    | false => rfl
    | true =>
      have h1 := (checkGroups_eq_true_iff _).mp hb'
      rw [(checkGroups_eq_true_iff _).mpr (groups_safe_transfer hp.symm h1)] at hb
      cases hb

theorem validate_hosts_perm (t : CephTree) {names names' : List String}
    (hp : names.Perm names') (h : t.validate_hosts names = .ok ()) :
    t.validate_hosts names' = .ok () := by
  rw [validate_hosts_ok_iff] at h ⊢
  intro n hn
  exact h n (hp.mem_iff.mpr hn)

theorem can_remove_host_node_perm (t : CephTree) {names names' : List String}
    (required_ancestor_type : String) (b : Bool) (hp : names.Perm names')
    (h : t.can_remove_host_node names required_ancestor_type = .ok b) :
    t.can_remove_host_node names' required_ancestor_type = .ok b := by
  rw [can_remove_host_node_ok_iff] at h ⊢
  obtain ⟨hs, hv, ps, hps, hb⟩ := h
  obtain ⟨ps', hps', hpp⟩ := mapExcept_perm _ hp ps hps
  exact ⟨hs, validate_hosts_perm t hp hv, ps', hps',
    hb.trans (checkGroups_groupPairs_perm hpp)⟩

theorem foldl_healthStep_partials (am : List (String × String)) :
    ∀ r : Result,
      (am.foldl healthStep r).partials = r.partials ++ healthSpecAux r.success am := by
  induction am with
  | nil =>
    intro r
    simp [healthSpecAux]
  | cons e rest ih =>
    intro r
    obtain ⟨unit, health⟩ := e
    rw [List.foldl_cons]
    by_cases h1 : (strContains health "HEALTH_OK" && r.success) = true
    · have hstep : healthStep r (unit, health) =
          r.add_partial_result Severity.OK (unit ++ ": Ceph cluster is healthy") := by
        simp only [healthStep]
        rw [if_pos h1]
      rw [hstep, ih, healthSpecAux]
      rw [if_pos h1, success_add_partial_ok]
      simp [Result.add_partial_result]
    · by_cases h2 : strContains health "HEALTH_WARN" = true
      · have hstep : healthStep r (unit, health) =
            r.add_partial_result Severity.FAIL
              (unit ++ ": Ceph cluster is in a warning state\n  " ++ health) := by
          simp only [healthStep]
          rw [if_neg h1, if_pos h2]
        rw [hstep, ih, healthSpecAux]
        rw [if_neg h1, if_pos h2, success_add_partial_fail]
        simp [Result.add_partial_result]
      · by_cases h3 : strContains health "HEALTH_ERR" = true
        · have hstep : healthStep r (unit, health) =
              r.add_partial_result Severity.FAIL
                (unit ++ ": Ceph cluster is unhealthy\n  " ++ health) := by
            simp only [healthStep]
            rw [if_neg h1, if_neg h2, if_pos h3]
          rw [hstep, ih, healthSpecAux]
          rw [if_neg h1, if_neg h2, if_pos h3, success_add_partial_fail]
          simp [Result.add_partial_result]
        · have hstep : healthStep r (unit, health) =
              r.add_partial_result Severity.FAIL
                (unit ++ ": Ceph cluster is in an unknown state\n  " ++ health) := by
            simp only [healthStep]
            rw [if_neg h1, if_neg h2, if_neg h3]
          rw [hstep, ih, healthSpecAux]
          rw [if_neg h1, if_neg h2, if_neg h3, success_add_partial_fail]
          simp [Result.add_partial_result]

theorem check_cluster_health_eq (am : List (String × String)) :
    check_cluster_health am =
      if am.isEmpty then
        Result.single Severity.FAIL "Ceph cluster status could not be obtained"
      else
        ⟨healthSpecAux true am⟩ := by
  unfold check_cluster_health
  cases am with
  | nil => simp
  | cons e rest =>
    simp only [List.isEmpty_cons, Bool.false_eq_true, if_false]
    apply result_eq_of_partials
    rw [foldl_healthStep_partials]
    rfl

theorem quorumStep_partials (aff : Finset String) (r : Result)
    (e : String × MonAction) :
    (quorumStep aff r e).partials = r.partials ++ quorumUnitPartials aff e := by
  unfold quorumStep quorumUnitPartials
  cases hp : parse_quorum_status e.2 with
  | ok pr =>
    obtain ⟨c, o⟩ := pr
    dsimp only
    by_cases hc : (o \ aff).card ≤ c / 2
    · rw [if_pos hc]
      simp [Result.add_partial_result, hc]
    · rw [if_neg hc]
      simp only [List.append_nil, if_neg hc]
  | error u =>
    dsimp only
    simp [Result.add_partial_result]

theorem foldl_quorumStep_partials (aff : Finset String)
    (l : List (String × MonAction)) :
    ∀ r : Result,
      (l.foldl (quorumStep aff) r).partials =
        r.partials ++ (l.map (quorumUnitPartials aff)).flatten := by
  induction l with
  | nil =>
    intro r
    simp
  | cons e rest ih =>
    intro r
    rw [List.foldl_cons, ih, quorumStep_partials]
    simp [List.flatten, List.append_assoc]

theorem check_quorum_partials (l : List (String × MonAction))
    (hosts : List String) :
    (check_quorum l hosts).partials =
      if (l.map (quorumUnitPartials hosts.toFinset)).flatten = [] then
        [(Severity.OK, "Ceph-mon quorum check passed.")]
      else
        (l.map (quorumUnitPartials hosts.toFinset)).flatten := by
  simp only [check_quorum, Result.orDefault]
  have hr : (List.foldl (quorumStep hosts.toFinset) Result.empty l).partials =
      (l.map (quorumUnitPartials hosts.toFinset)).flatten := by
    rw [foldl_quorumStep_partials]
    simp [Result.empty]
  by_cases hj : (l.map (quorumUnitPartials hosts.toFinset)).flatten = []
  · have hcond : (List.foldl (quorumStep hosts.toFinset) Result.empty l).partials = [] := by
      rw [hr]
      exact hj
    rw [if_pos hcond, if_pos hj]
    rfl
  · have hcond :
        ¬ (List.foldl (quorumStep hosts.toFinset) Result.empty l).partials = [] := by
      rw [hr]
      exact hj
    rw [if_neg hcond, if_neg hj]
    exact hr

theorem replicationStep_partials (r : Result) (app : OsdApp) :
    (replicationStep r app).partials = r.partials ++ replicationAppPartials app := by
  unfold replicationStep replicationAppPartials
  cases hm : get_replication_number app.pools with
  | none => simp
  | some m =>
    dsimp only
    by_cases hc :
        ((app.verified_unit_ids.toFinset ∪ app.inactive_unit_ids.toFinset).card : Int)
          > m
    · rw [if_pos hc]
      simp [Result.add_partial_result, hc]
    · rw [if_neg hc]
      simp only [List.append_nil, if_neg hc]

theorem foldl_replicationStep_partials (apps : List OsdApp) :
    ∀ r : Result,
      (apps.foldl replicationStep r).partials =
        r.partials ++ (apps.map replicationAppPartials).flatten := by
  induction apps with
  | nil =>
    intro r
    simp
  | cons app rest ih =>
    intro r
    rw [List.foldl_cons, ih, replicationStep_partials]
    simp [List.flatten, List.append_assoc]

theorem check_replication_number_partials (apps : List OsdApp) :
    (check_replication_number apps).partials =
      if (apps.map replicationAppPartials).flatten = [] then
        [(Severity.OK, "Minimum replica number check passed.")]
      else
        (apps.map replicationAppPartials).flatten := by
  simp only [check_replication_number, Result.orDefault]
  have hr : (List.foldl replicationStep Result.empty apps).partials =
      (apps.map replicationAppPartials).flatten := by
    rw [foldl_replicationStep_partials]
    simp [Result.empty]
  by_cases hj : (apps.map replicationAppPartials).flatten = []
  · have hcond : (List.foldl replicationStep Result.empty apps).partials = [] := by
      rw [hr]
      exact hj
    rw [if_pos hcond, if_pos hj]
    rfl
  · have hcond : ¬ (List.foldl replicationStep Result.empty apps).partials = [] := by
      rw [hr]
      exact hj
    rw [if_neg hcond, if_neg hj]
    exact hr

theorem checks_executor_pair_partials (q h : String × Except String Result) :
    (checks_executor [q, h]).partials =
      (checks_executor [q]).partials ++ (checks_executor [h]).partials := by
  obtain ⟨qn, qr⟩ := q
  obtain ⟨hn, hr⟩ := h
  cases qr with
  | ok r1 =>
    cases hr with
    | ok r2 => simp [checks_executor, Result.combine, Result.empty]
    | error e2 => simp [checks_executor, Result.combine, Result.empty, Result.single]
  | error e1 =>
    cases hr with
    | ok r2 => simp [checks_executor, Result.combine, Result.empty, Result.single]
    | error e2 => simp [checks_executor, Result.combine, Result.empty, Result.single]

theorem foldl_min_mem (xs : List Int) : ∀ x : Int, xs.foldl min x ∈ x :: xs := by
  induction xs with
  | nil => intro x; simp
  | cons a as ih =>
    intro x
    rw [List.foldl_cons]
    have h := ih (min x a)
    rcases List.mem_cons.mp h with h | h
    · rw [h]
      rcases min_choice x a with hm | hm <;> rw [hm]
      · exact List.mem_cons_self _ _
      · exact List.mem_cons_of_mem _ (List.mem_cons_self _ _)
    · exact List.mem_cons_of_mem _ (List.mem_cons_of_mem _ h)

theorem foldl_min_le (xs : List Int) :
    ∀ x y : Int, y ∈ x :: xs → xs.foldl min x ≤ y := by
  induction xs with
  | nil =>
    intro x y hy
    simp only [List.mem_singleton] at hy
    subst hy
    simp
  | cons a as ih =>
    intro x y hy
    rw [List.foldl_cons]
    rcases List.mem_cons.mp hy with hy | hy
    · rw [hy]
      exact le_trans (ih (min x a) (min x a) (List.mem_cons_self _ _)) (min_le_left x a)
    · rcases List.mem_cons.mp hy with hy | hy
      · rw [hy]
        exact le_trans (ih (min x a) (min x a) (List.mem_cons_self _ _)) (min_le_right x a)
      · exact ih (min x a) y (List.mem_cons_of_mem _ hy)

theorem get_replication_number_min (pools : List PoolDetail) (hne : pools ≠ []) :
    ∃ m0, get_replication_number pools = some m0 ∧
      (∀ pool ∈ pools, m0 ≤ pool.size - pool.min_size) ∧
      ∃ pool ∈ pools, m0 = pool.size - pool.min_size := by
  cases hmap : pools.map (fun pool => pool.size - pool.min_size) with
  | nil =>
    exact absurd (List.map_eq_nil_iff.mp hmap) hne
  | cons x xs =>
    refine ⟨xs.foldl min x, ?_, ?_, ?_⟩
    · unfold get_replication_number
      rw [hmap]
    · intro pool hpool
      apply foldl_min_le
      rw [← hmap]
      exact List.mem_map.mpr ⟨pool, hpool, rfl⟩
    · have hmem : xs.foldl min x ∈ x :: xs := foldl_min_mem xs x
      rw [← hmap] at hmem
      obtain ⟨pool, hpool, hval⟩ := List.mem_map.mp hmem
      exact ⟨pool, hpool, hval.symm⟩

/-
Claim theorems.
-/

/-- Claim C1: for every tree and every removal request accepted by
`can_remove_host_node` (that is, one on which it returns a boolean rather
than raising), an ancestor group is judged unsafe exactly when the ancestor's
kb_avail minus the sum of the group's hosts' kb_avail is less than or equal
to (non-strict) the sum of the group's hosts' kb_used: the returned boolean
is `false` iff some ancestor group of the resolved request satisfies that
inequality. The witness covers the concrete boundary instances (ancestor
kb_avail = 1000 with two hosts of kb_used = 100 and kb_avail = 400 is unsafe,
kb_avail = 1001 is safe). -/
theorem claim_C1_capacity_predicate (t : CephTree) (names : List String)
    (required_ancestor_type : String) (b : Bool)
    (h : t.can_remove_host_node names required_ancestor_type = .ok b) :
    ∃ ps, mapExcept (t.resolve_ancestor_pair required_ancestor_type) names = .ok ps ∧
      (b = false ↔ ∃ g ∈ groupPairs ps,
        g.1.kb_avail - (g.2.map NodeInfo.kb_avail).sum ≤ (g.2.map NodeInfo.kb_used).sum) := by
  rw [can_remove_host_node_ok_iff] at h
  obtain ⟨hs, hv, ps, hps, hb⟩ := h
  refine ⟨ps, hps, ?_⟩
  rw [hb]
  simpa [groupLacksSpace] using checkGroups_eq_false_iff (groupPairs ps)

/-- Witness for claim C1 at the spec's boundary inputs: the 1000-kB ancestor
request is rejected as unsafe and the theorem exhibits its unsafe ancestor
group; the 1001-kB request is accepted as safe. -/
theorem claim_C1_capacity_predicate_witness :
    tree1000.can_remove_host_node ["host.0", "host.1"] "root" = .ok false ∧
    tree1001.can_remove_host_node ["host.0", "host.1"] "root" = .ok true ∧
    ∃ ps, mapExcept (tree1000.resolve_ancestor_pair "root") ["host.0", "host.1"] = .ok ps ∧
      ∃ g ∈ groupPairs ps,
        g.1.kb_avail - (g.2.map NodeInfo.kb_avail).sum ≤ (g.2.map NodeInfo.kb_used).sum := by
  refine ⟨rfl, rfl, ?_⟩
  obtain ⟨ps, hps, hiff⟩ :=
    claim_C1_capacity_predicate tree1000 ["host.0", "host.1"] "root" false rfl
  exact ⟨ps, hps, hiff.mp rfl⟩

/-- Claim C6: ancestor resolution on the synthetic tree
root(-1) -> rack(-2) -> host(-4) -> osd(0): the host's ancestor of required
type "root" is the root node, of required type "rack" the rack node, and the
root node has no "root" ancestor (absent). -/
theorem claim_C6_find_ancestor :
    syntheticTree.find_ancestor synHost "root" = some synRoot ∧
    syntheticTree.find_ancestor synHost "rack" = some synRack ∧
    syntheticTree.find_ancestor synRoot "root" = none :=
  ⟨rfl, rfl, rfl⟩

/-- Claim C10: calling `can_remove_host_node` with an empty name tuple and
any supported required ancestor type returns `True` without raising: no name
resolution, ancestor lookup or group test is performed on an empty tuple. -/
theorem claim_C10_empty_names (t : CephTree) (required_ancestor_type : String)
    (h : CephTree.SUPPORTED_ANCESTOR_TYPES.contains required_ancestor_type = true) :
    t.can_remove_host_node [] required_ancestor_type = .ok true := by
  have hmem : required_ancestor_type ∈ CephTree.SUPPORTED_ANCESTOR_TYPES := by
    simpa using h
  simp [CephTree.can_remove_host_node, h, hmem, CephTree.validate_hosts,
    CephTree.build_ancestors_map, checkGroups, ok_bind]

/-- Witness for claim C10 on a concrete tree and ancestor type. -/
theorem claim_C10_empty_names_witness :
    CephTree.SUPPORTED_ANCESTOR_TYPES.contains "rack" = true ∧
    syntheticTree.can_remove_host_node [] "rack" = .ok true :=
  ⟨by decide, claim_C10_empty_names syntheticTree "rack" (by decide)⟩

/-- Claim C5: `can_remove_host_node` raises (returns an error, never a safe
`True`) when the required ancestor type is unsupported, when some given name
does not resolve to a node of type host (either resolving to a non-host node
or to no node at all: the premise covers both, since `get_node` is
deterministic), or when some candidate host's ancestor of the required type
cannot be found. -/
theorem claim_C5_errors (t : CephTree) (names : List String)
    (required_ancestor_type : String) :
    (CephTree.SUPPORTED_ANCESTOR_TYPES.contains required_ancestor_type = false →
      t.can_remove_host_node names required_ancestor_type =
        .error ("`" ++ required_ancestor_type ++ "` is not supported")) ∧
    ((∃ n ∈ names, ∀ node, t.get_node n = .ok node → node.«type» ≠ "host") →
      ∃ e, t.can_remove_host_node names required_ancestor_type = .error e) ∧
    ((∃ n ∈ names, ∃ node, t.get_node n = .ok node ∧
        t.find_ancestor node required_ancestor_type = none) →
      ∃ e, t.can_remove_host_node names required_ancestor_type = .error e) := by
  refine ⟨?_, ?_, ?_⟩
  · intro h
    have hmem : required_ancestor_type ∉ CephTree.SUPPORTED_ANCESTOR_TYPES := by
      simpa using h
    simp [CephTree.can_remove_host_node, h, hmem]
  · intro ⟨n, hn, hbad⟩
    cases hres : t.can_remove_host_node names required_ancestor_type with
    | error e => exact ⟨e, rfl⟩
    | ok b =>
      exfalso
      rw [can_remove_host_node_ok_iff] at hres
      obtain ⟨_, hv, _, _, _⟩ := hres
      obtain ⟨node, hnode, htype⟩ := (validate_hosts_ok_iff t names).mp hv n hn
      exact hbad node hnode htype
  · intro ⟨n, hn, node, hnode, hanc⟩
    cases hres : t.can_remove_host_node names required_ancestor_type with
    | error e => exact ⟨e, rfl⟩
    | ok b =>
      exfalso
      rw [can_remove_host_node_ok_iff] at hres
      obtain ⟨_, _, ps, hps, _⟩ := hres
      obtain ⟨p, hp⟩ := mapExcept_ok_mem _ names ps hps n hn
      simp only [CephTree.resolve_ancestor_pair, hnode, ok_bind, hanc] at hp
      exact Except.noConfusion hp

/-- Witness for claim C5: the three error cases at concrete inputs — an
unsupported ancestor type ("osd"), a name resolving to a non-host node
("osd.0"), and a host with no ancestor of the required type (a tree without a
root node). -/
theorem claim_C5_errors_witness :
    syntheticTree.can_remove_host_node ["host.0"] "osd" =
      .error ("`osd` is not supported") ∧
    (∃ e, syntheticTree.can_remove_host_node ["osd.0"] "root" = .error e) ∧
    (∃ e, orphanHostTree.can_remove_host_node ["host.0"] "root" = .error e) := by
  refine ⟨?_, ?_, ?_⟩
  · exact (claim_C5_errors syntheticTree ["host.0"] "osd").1 (by decide)
  · refine (claim_C5_errors syntheticTree ["osd.0"] "root").2.1 ⟨"osd.0", by simp, ?_⟩
    intro node hnode
    have h0 : syntheticTree.get_node "osd.0" = .ok synOsd := rfl
    rw [h0] at hnode
    have : synOsd = node := by simpa using hnode
    rw [← this]
    decide
  · refine (claim_C5_errors orphanHostTree ["host.0"] "root").2.2
      ⟨"host.0", by simp, ⟨-4, "host.0", 1, "host", 300, 100, 100, some [0]⟩, rfl, rfl⟩

/-- Claim C7: the boolean verdict of an accepted `can_remove_host_node`
request is invariant under any permutation of the names, and equals the
conjunction of the per-ancestor-group safety tests (`True` iff every ancestor
group passes); in particular, when one group is unsafe — as in the witness's
two disjoint rack groups, one safe and one unsafe — the overall verdict is
`False`. -/
theorem claim_C7_perm_and_conjunction (t : CephTree) (names names' : List String)
    (required_ancestor_type : String) (b : Bool) (hperm : names.Perm names')
    (h : t.can_remove_host_node names required_ancestor_type = .ok b) :
    t.can_remove_host_node names' required_ancestor_type = .ok b ∧
    ∃ ps, mapExcept (t.resolve_ancestor_pair required_ancestor_type) names = .ok ps ∧
      (b = true ↔ ∀ g ∈ groupPairs ps,
        ¬ (g.1.kb_avail - (g.2.map NodeInfo.kb_avail).sum ≤
          (g.2.map NodeInfo.kb_used).sum)) := by
  refine ⟨can_remove_host_node_perm t required_ancestor_type b hperm h, ?_⟩
  rw [can_remove_host_node_ok_iff] at h
  obtain ⟨hs, hv, ps, hps, hb⟩ := h
  refine ⟨ps, hps, ?_⟩
  rw [hb]
  simpa [groupLacksSpace] using checkGroups_eq_true_iff (groupPairs ps)

/-- Witness for claim C7: on the two-rack tree (rack.0 safe, rack.1 unsafe)
the request is unsafe in one order, and by the theorem also in the swapped
order. -/
theorem claim_C7_perm_and_conjunction_witness :
    twoGroupTree.can_remove_host_node ["host.1", "host.0"] "rack" = .ok false :=
  (claim_C7_perm_and_conjunction twoGroupTree ["host.0", "host.1"]
    ["host.1", "host.0"] "rack" false (List.Perm.swap "host.1" "host.0" []) rfl).1

/-- Counterexample to claim C2 as stated: in the source the HEALTH_OK branch
is guarded by `and result.success`, so once an earlier monitor has failed, a
monitor whose string contains HEALTH_OK (and neither HEALTH_WARN nor
HEALTH_ERR) falls through to the unknown-state branch and contributes a FAIL
partial, not an OK partial. Here the second monitor's string contains
HEALTH_OK, yet the result has no OK partial at all. -/
theorem claim_C2_counterexample :
    strContains "HEALTH_OK" "HEALTH_OK" = true ∧
    ¬ ∃ p ∈ (check_cluster_health
        [("ceph-mon/0", "HEALTH_WARN clock skew"), ("ceph-mon/1", "HEALTH_OK")]).partials,
      p.1 = Severity.OK := by
  decide

/-- Amended claim C2: in the per-monitor classification the HEALTH_OK rule
applies only while the accumulated result is still successful (no FAIL
partial yet); the rules are tried in order HEALTH_OK-and-successful,
HEALTH_WARN, HEALTH_ERR, otherwise-unknown, the WARN/ERR/unknown partials are
FAIL partials carrying the full message, and an empty monitor-response map
yields the hard-FAIL singleton Result (whose sole partial is FAIL). The
equation with `healthSpecAux` states exactly this classification. -/
theorem claim_C2_amended :
    (∀ action_map : List (String × String),
      check_cluster_health action_map =
        if action_map.isEmpty then
          Result.single Severity.FAIL "Ceph cluster status could not be obtained"
        else
          ⟨healthSpecAux true action_map⟩) ∧
    (check_cluster_health []).success = false :=
  ⟨check_cluster_health_eq, by decide⟩

/-- Claim C3: a monitor whose quorum status parses to known-member set K and
online-member set O contributes, against removal set R, exactly one FAIL
partial iff the number of online members left after removal is at most half
of the known members, |O minus R| at most |K| / 2 with integer floor division, and no
partial otherwise; the whole check's partials are the concatenation of the
per-monitor contributions (with the OK singleton when there are none). The
final conjuncts are the boundary instances: |K| = 5 with 2 remaining online
is unsafe, with 3 remaining online is safe. -/
theorem claim_C3_quorum_boundary :
    (∀ (affected known quorum : List String) (u eid : String),
      (quorumUnitPartials affected.toFinset (u, ⟨eid, .parsed known quorum⟩) =
          [(Severity.FAIL,
            "Rebooting or shutting down the unit " ++ u ++ " will lose ceph-mon quorum")]
        ↔ (quorum.toFinset \ affected.toFinset).card ≤ known.toFinset.card / 2) ∧
      (quorumUnitPartials affected.toFinset (u, ⟨eid, .parsed known quorum⟩) = []
        ↔ ¬ (quorum.toFinset \ affected.toFinset).card ≤ known.toFinset.card / 2)) ∧
    (∀ (l : List (String × MonAction)) (affected : List String),
      (check_quorum l affected).partials =
        if (l.map (quorumUnitPartials affected.toFinset)).flatten = [] then
          [(Severity.OK, "Ceph-mon quorum check passed.")]
        else
          (l.map (quorumUnitPartials affected.toFinset)).flatten) ∧
    quorumUnitPartials (["m3", "m4", "m5"].toFinset)
      ("u", ⟨"a", .parsed ["m1", "m2", "m3", "m4", "m5"] ["m1", "m2", "m3", "m4", "m5"]⟩)
      ≠ [] ∧
    quorumUnitPartials (["m4", "m5"].toFinset)
      ("u", ⟨"a", .parsed ["m1", "m2", "m3", "m4", "m5"] ["m1", "m2", "m3", "m4", "m5"]⟩)
      = [] := by
  refine ⟨?_, check_quorum_partials, by decide, by decide⟩
  intro affected known quorum u eid
  constructor
  · unfold quorumUnitPartials parse_quorum_status
    dsimp only
    by_cases hc : (quorum.toFinset \ affected.toFinset).card ≤ known.toFinset.card / 2
    · rw [if_pos hc]
      simp [hc]
    · rw [if_neg hc]
      simp [hc]
  · unfold quorumUnitPartials parse_quorum_status
    dsimp only
    by_cases hc : (quorum.toFinset \ affected.toFinset).card ≤ known.toFinset.card / 2
    · rw [if_pos hc]
      simp [hc]
    · rw [if_neg hc]
      simp [hc]

/-- Claim C4: per application, the replication check contributes exactly one
FAIL partial iff the application has pools and the cardinality of the union
of the units proposed for removal and the units already inactive exceeds the
minimum over the pools of (size - min_size); an application with no pools
contributes no partial at all (neither OK nor FAIL); the check's partials are
the concatenation of the per-application contributions (with the OK singleton
when there are none); and for a nonempty pool list `get_replication_number`
really is that minimum (a lower bound that is attained). -/
theorem claim_C4_replication_margin (apps : List OsdApp) (app : OsdApp) (m : Int) :
    (app.pools = [] → replicationAppPartials app = []) ∧
    (get_replication_number app.pools = some m →
      ((∃ s, replicationAppPartials app = [(Severity.FAIL, s)]) ↔
        ((app.verified_unit_ids.toFinset ∪ app.inactive_unit_ids.toFinset).card : Int)
          > m)) ∧
    (app.pools ≠ [] →
      ∃ m0, get_replication_number app.pools = some m0 ∧
        (∀ pool ∈ app.pools, m0 ≤ pool.size - pool.min_size) ∧
        ∃ pool ∈ app.pools, m0 = pool.size - pool.min_size) ∧
    (check_replication_number apps).partials =
      (if (apps.map replicationAppPartials).flatten = [] then
        [(Severity.OK, "Minimum replica number check passed.")]
      else
        (apps.map replicationAppPartials).flatten) := by
  refine ⟨?_, ?_, get_replication_number_min app.pools,
    check_replication_number_partials apps⟩
  · intro h
    unfold replicationAppPartials get_replication_number
    rw [h]
    rfl
  · intro hm
    unfold replicationAppPartials
    rw [hm]
    dsimp only
    by_cases hc :
        ((app.verified_unit_ids.toFinset ∪ app.inactive_unit_ids.toFinset).card : Int)
          > m
    · rw [if_pos hc]
      simp [hc]
    · rw [if_neg hc]
      simp [hc]

/-- Witness for claim C4 at the spec's margin example: pools [{size 3,
min_size 2}] give margin 1; one unit with no inactive units is safe (no
partial), one unit with one inactive unit is unsafe (a FAIL partial); the
no-pools application contributes nothing; and the margin of the example pool
list is computed as a genuine minimum. -/
theorem claim_C4_replication_margin_witness :
    replicationAppPartials replAppNoPools = [] ∧
    (∃ s, replicationAppPartials replAppExceeding = [(Severity.FAIL, s)]) ∧
    ¬ (∃ s, replicationAppPartials replAppSafe = [(Severity.FAIL, s)]) ∧
    (∃ m0, get_replication_number replAppSafe.pools = some m0 ∧
      (∀ pool ∈ replAppSafe.pools, m0 ≤ pool.size - pool.min_size) ∧
      ∃ pool ∈ replAppSafe.pools, m0 = pool.size - pool.min_size) := by
  refine ⟨(claim_C4_replication_margin [] replAppNoPools 0).1 rfl, ?_, ?_, ?_⟩
  · exact ((claim_C4_replication_margin [] replAppExceeding 1).2.1 (by decide)).mpr
      (by decide)
  · intro hs
    have := ((claim_C4_replication_margin [] replAppSafe 1).2.1 (by decide)).mp hs
    revert this
    decide
  · exact (claim_C4_replication_margin [] replAppSafe 0).2.2.1 (by decide)

/-- Claim C8: in the ceph-mon verification flow the version gate runs first;
when it does not succeed, the returned Result is exactly the gate's result
and does not depend on the quorum or health outcomes at all (they are never
executed); when it succeeds, the final Result combines the version, quorum
and health results in that order. -/
theorem claim_C8_verify_reboot_order (version quorum health : String × Except String Result) :
    ((checks_executor [version]).success = false →
      verify_reboot_mon version quorum health = checks_executor [version] ∧
      ∀ q h, verify_reboot_mon version q h = verify_reboot_mon version quorum health) ∧
    ((checks_executor [version]).success = true →
      verify_reboot_mon version quorum health =
        (checks_executor [version]).combine (checks_executor [quorum, health]) ∧
      (verify_reboot_mon version quorum health).partials =
        (checks_executor [version]).partials ++ (checks_executor [quorum]).partials ++
          (checks_executor [health]).partials) := by
  constructor
  · intro hfail
    constructor
    · simp [verify_reboot_mon, hfail]
    · intro q h
      simp [verify_reboot_mon, hfail]
  · intro hsucc
    have hcond : ¬ (checks_executor [version]).success = false := by
      rw [hsucc]
      simp
    constructor
    · simp [verify_reboot_mon, hcond]
    · simp [verify_reboot_mon, hcond, Result.combine, checks_executor_pair_partials,
        List.append_assoc]

/-- Witness for claim C8: with a failing version gate the quorum and health
outcomes are irrelevant and the gate's result is returned; with a passing
gate all three results are concatenated in order. -/
theorem claim_C8_verify_reboot_order_witness :
    (verify_reboot_mon versionGateFail quorumOutcomeOk healthOutcomeRaised =
        checks_executor [versionGateFail] ∧
      ∀ q h, verify_reboot_mon versionGateFail q h =
        verify_reboot_mon versionGateFail quorumOutcomeOk healthOutcomeRaised) ∧
    (verify_reboot_mon versionGateOk quorumOutcomeOk healthOutcomeRaised).partials =
      (checks_executor [versionGateOk]).partials ++
        (checks_executor [quorumOutcomeOk]).partials ++
        (checks_executor [healthOutcomeRaised]).partials :=
  ⟨(claim_C8_verify_reboot_order versionGateFail quorumOutcomeOk healthOutcomeRaised).1
      (by decide),
    ((claim_C8_verify_reboot_order versionGateOk quorumOutcomeOk healthOutcomeRaised).2
      (by decide)).2⟩

/-- Claim C9: when one monitor's quorum payload is malformed, `check_quorum`
contributes a FAIL partial naming the parse failure for that action, the
units before and after it still contribute their own partials, and no
exception escapes (the check is a total function returning a Result whose
partials are exactly this concatenation). -/
theorem claim_C9_parse_failure_isolated (xs ys : List (String × MonAction))
    (u eid : String) (affected : List String) :
    (check_quorum (xs ++ (u, ⟨eid, QuorumPayload.malformed⟩) :: ys) affected).partials =
      (xs.map (quorumUnitPartials affected.toFinset)).flatten ++
        [(Severity.FAIL, "Failed to parse quorum status from action " ++ eid ++ ".")] ++
        (ys.map (quorumUnitPartials affected.toFinset)).flatten := by
  rw [check_quorum_partials]
  have hmid : quorumUnitPartials affected.toFinset (u, ⟨eid, QuorumPayload.malformed⟩) =
      [(Severity.FAIL, "Failed to parse quorum status from action " ++ eid ++ ".")] := rfl
  rw [List.map_append, List.map_cons, List.flatten_append, List.flatten_cons, hmid]
  rw [if_neg (by simp)]
  simp [List.append_assoc]

end JujuVerify
